import Mathlib

/-!
Shallow embedding of the EDA repository (src/EDA.py) — an exploratory
data-analysis front-end over a tabular dataset — together with the parts of
the second front-end that the specification describes (data loader by file
suffix, column classifier, two-sample t-test) but whose source is not in the
repository snapshot; those are modelled from the spec and marked as such.

A pandas DataFrame is modelled as an ordered list of named columns; a cell is
`Option Value`, with `none` standing for a missing entry (NaN/None).  The
streamlit rendering calls (`st.write`, `st.pyplot`, ...) are modelled as an
output list: each Python function taking the dataframe is embedded as a
function `DataFrame → List Output × DataFrame`, returning the outputs it
renders together with the dataframe as it stands after the body has run, so
that absence of mutation is an explicit theorem about the returned state.

`np.random.randint(lo, hi, n)` / `np.random.choice(opts, n)` are modelled by
threading an arbitrary draw stream `Nat → Nat` per column and reducing each
draw into the documented range (`lo + r % (hi - lo)`, resp. `opts[r % len]`):
the theorems quantify over all draw streams, i.e. over every possible
randomized outcome.
-/

/-- A scalar cell value: the sample data only holds integers and strings. -/
inductive Value where
  | int : Int → Value
  | str : String → Value
deriving DecidableEq, Repr

/-- A dataframe cell; `none` models a missing value (NaN/None in pandas). -/
abbrev Cell := Option Value

/-- A named dataframe column. -/
structure Column where
  name : String
  cells : List Cell
deriving DecidableEq, Repr

/-- A pandas DataFrame: an ordered list of named columns. -/
abbrev DataFrame := List Column

/-- Column selection `df[name]`: the cells of the first column so named
(`[]` when absent — pandas would raise, but no claim touches that path). -/
def getCol (df : DataFrame) (name : String) : List Cell :=
  match df.find? (fun c => c.name == name) with
  | some c => c.cells
  | none => []

/-- `np.random.randint(lo, hi)`: a draw `r` reduced into `[lo, hi)`. -/
def randint (lo hi : Int) (r : Nat) : Int :=
  lo + ((r % (hi - lo).toNat : Nat) : Int)

/-- `np.random.choice(opts)`: a draw `r` reduced to an element of `opts`. -/
def randchoice (opts : List String) (r : Nat) : String :=
  opts.getD (r % opts.length) ""

/-- `['…'] * 20` in Python: the list repeated 20 times, concatenated. -/
def pyRepeat20 (l : List String) : List String :=
  (List.replicate 20 l).flatten

/-- `load_data` (src/EDA.py lines 8–20): builds the synthetic sample
dataframe.  The five draw streams stand for the five `np.random` calls. -/
def load_data (yr sr pr fr br : Nat → Nat) : DataFrame :=
  [ ⟨"Make", (pyRepeat20 ["Maruti", "Hyundai", "Tata", "Mahindra", "Honda"]).map
      (fun s => some (Value.str s))⟩,
    ⟨"Model", (pyRepeat20 ["Swift", "i20", "Nexon", "XUV300", "City"]).map
      (fun s => some (Value.str s))⟩,
    ⟨"Year", (List.range 100).map
      (fun i => some (Value.int (randint 2015 2024 (yr i))))⟩,
    ⟨"Sales", (List.range 100).map
      (fun i => some (Value.int (randint 5000 50000 (sr i))))⟩,
    ⟨"Price", (List.range 100).map
      (fun i => some (Value.int (randint 500000 2000000 (pr i))))⟩,
    ⟨"Fuel_Type", (List.range 100).map
      (fun i => some (Value.str (randchoice ["Petrol", "Diesel", "Electric", "CNG"] (fr i))))⟩,
    ⟨"Body_Type", (List.range 100).map
      (fun i => some (Value.str (randchoice ["Hatchback", "Sedan", "SUV", "MUV"] (br i))))⟩ ]

/-- The column names of the synthetic dataset, in construction order. -/
def sampleSchema : List String :=
  ["Make", "Model", "Year", "Sales", "Price", "Fuel_Type", "Body_Type"]

/-- C1: every call to `load_data` returns a dataframe whose columns are
exactly `Make, Model, Year, Sales, Price, Fuel_Type, Body_Type` in that
order, each of length 100 — the schema is independent of the random draws. -/
theorem load_data_fixed_schema (yr sr pr fr br : Nat → Nat) :
    (load_data yr sr pr fr br).map (fun c => c.name) = sampleSchema ∧
    ∀ c ∈ load_data yr sr pr fr br, c.cells.length = 100 := by
  constructor
  · rfl
  · intro c hc
    simp only [load_data, List.mem_cons, List.not_mem_nil, or_false] at hc
    rcases hc with h | h | h | h | h | h | h <;> subst h <;>
      simp [pyRepeat20, List.length_flatten]

/-- Closed instance of `load_data_fixed_schema` at the all-zero draw stream. -/
theorem load_data_fixed_schema_witness :
    (load_data (fun _ => 0) (fun _ => 0) (fun _ => 0) (fun _ => 0) (fun _ => 0)).map
        (fun c => c.name) = sampleSchema ∧
    (⟨"Year", (List.range 100).map
        (fun _ => some (Value.int 2015))⟩ : Column).cells.length = 100 := by
  refine ⟨(load_data_fixed_schema (fun _ => 0) (fun _ => 0) (fun _ => 0)
    (fun _ => 0) (fun _ => 0)).1, ?_⟩
  exact (load_data_fixed_schema (fun _ => 0) (fun _ => 0) (fun _ => 0)
    (fun _ => 0) (fun _ => 0)).2 _ (by decide)

/-- `randint lo hi r` lies in `[lo, hi - 1]` whenever `lo < hi`. -/
theorem randint_bounds (lo hi : Int) (r : Nat) (h : lo < hi) :
    lo ≤ randint lo hi r ∧ randint lo hi r ≤ hi - 1 := by
  have hlt : r % (hi - lo).toNat < (hi - lo).toNat :=
    Nat.mod_lt r (by omega)
  unfold randint
  omega

/-- `randchoice opts r` is an element of `opts` whenever `opts` is nonempty. -/
theorem randchoice_mem (opts : List String) (r : Nat) (h : opts ≠ []) :
    randchoice opts r ∈ opts := by
  unfold randchoice
  have hl : r % opts.length < opts.length :=
    Nat.mod_lt r (List.length_pos.mpr h)
  rw [List.getD_eq_getElem _ _ hl]
  exact List.getElem_mem hl

/-- C8: every dataset produced by `load_data` satisfies the value-range
invariant: Year in [2015, 2023], Sales in [5000, 49999], Price in
[500000, 1999999], Fuel_Type among Petrol/Diesel/Electric/CNG, and
Body_Type among Hatchback/Sedan/SUV/MUV — for every draw stream. -/
theorem load_data_value_ranges (yr sr pr fr br : Nat → Nat) :
    (∀ c ∈ getCol (load_data yr sr pr fr br) "Year",
        ∃ n : Int, c = some (Value.int n) ∧ 2015 ≤ n ∧ n ≤ 2023) ∧
    (∀ c ∈ getCol (load_data yr sr pr fr br) "Sales",
        ∃ n : Int, c = some (Value.int n) ∧ 5000 ≤ n ∧ n ≤ 49999) ∧
    (∀ c ∈ getCol (load_data yr sr pr fr br) "Price",
        ∃ n : Int, c = some (Value.int n) ∧ 500000 ≤ n ∧ n ≤ 1999999) ∧
    (∀ c ∈ getCol (load_data yr sr pr fr br) "Fuel_Type",
        ∃ s : String, c = some (Value.str s) ∧
          s ∈ ["Petrol", "Diesel", "Electric", "CNG"]) ∧
    (∀ c ∈ getCol (load_data yr sr pr fr br) "Body_Type",
        ∃ s : String, c = some (Value.str s) ∧
          s ∈ ["Hatchback", "Sedan", "SUV", "MUV"]) := by
  refine ⟨?_, ?_, ?_, ?_, ?_⟩ <;> intro c hc
  · replace hc : c ∈ (List.range 100).map
        (fun i => some (Value.int (randint 2015 2024 (yr i)))) := hc
    obtain ⟨i, _, rfl⟩ := List.mem_map.mp hc
    refine ⟨randint 2015 2024 (yr i), rfl, (randint_bounds _ _ _ (by decide)).1, ?_⟩
    have h2 := (randint_bounds 2015 2024 (yr i) (by decide)).2
    omega
  · replace hc : c ∈ (List.range 100).map
        (fun i => some (Value.int (randint 5000 50000 (sr i)))) := hc
    obtain ⟨i, _, rfl⟩ := List.mem_map.mp hc
    refine ⟨randint 5000 50000 (sr i), rfl, (randint_bounds _ _ _ (by decide)).1, ?_⟩
    have h2 := (randint_bounds 5000 50000 (sr i) (by decide)).2
    omega
  · replace hc : c ∈ (List.range 100).map
        (fun i => some (Value.int (randint 500000 2000000 (pr i)))) := hc
    obtain ⟨i, _, rfl⟩ := List.mem_map.mp hc
    refine ⟨randint 500000 2000000 (pr i), rfl,
      (randint_bounds _ _ _ (by decide)).1, ?_⟩
    have h2 := (randint_bounds 500000 2000000 (pr i) (by decide)).2
    omega
  · replace hc : c ∈ (List.range 100).map
        (fun i => some (Value.str
          (randchoice ["Petrol", "Diesel", "Electric", "CNG"] (fr i)))) := hc
    obtain ⟨i, _, rfl⟩ := List.mem_map.mp hc
    exact ⟨_, rfl, randchoice_mem _ _ (by decide)⟩
  · replace hc : c ∈ (List.range 100).map
        (fun i => some (Value.str
          (randchoice ["Hatchback", "Sedan", "SUV", "MUV"] (br i)))) := hc
    obtain ⟨i, _, rfl⟩ := List.mem_map.mp hc
    exact ⟨_, rfl, randchoice_mem _ _ (by decide)⟩

/-- Closed instance of `load_data_value_ranges`: the first Year cell under the
all-zero draw stream. -/
theorem load_data_value_ranges_witness :
    ∃ n : Int, (some (Value.int 2015) : Cell) = some (Value.int n) ∧
      2015 ≤ n ∧ n ≤ 2023 :=
  (load_data_value_ranges (fun _ => 0) (fun _ => 0) (fun _ => 0) (fun _ => 0)
    (fun _ => 0)).1 (some (Value.int 2015)) (by decide)

/-- Stable insertion of `a` into `l` w.r.t. `le` (front position on ties). -/
def insertLe {α : Type} (le : α → α → Bool) (a : α) : List α → List α
  | [] => [a]
  | b :: bs => if le a b then a :: b :: bs else b :: insertLe le a bs

/-- Stable comparison sort, modelling the sorting pandas performs
(`groupby` key ordering and `sort_values`). -/
def sortByLe {α : Type} (le : α → α → Bool) : List α → List α
  | [] => []
  | a :: as => insertLe le a (sortByLe le as)

theorem insertLe_perm {α : Type} (le : α → α → Bool) (a : α) (l : List α) :
    (insertLe le a l).Perm (a :: l) := by
  induction l with
  | nil => exact List.Perm.refl _
  | cons b bs ih =>
    simp only [insertLe]
    cases hle : le a b
    · simp only [Bool.false_eq_true, if_false]
      exact (ih.cons b).trans (List.Perm.swap a b bs)
    · simp only [if_true]
      exact List.Perm.refl _

theorem sortByLe_perm {α : Type} (le : α → α → Bool) (l : List α) :
    (sortByLe le l).Perm l := by
  induction l with
  | nil => exact List.Perm.refl _
  | cons a as ih =>
    exact (insertLe_perm le a (sortByLe le as)).trans (ih.cons a)

theorem pairwise_insertLe {α : Type} (le : α → α → Bool)
    (htrans : ∀ a b c, le a b = true → le b c = true → le a c = true)
    (htot : ∀ a b, le a b = true ∨ le b a = true)
    (a : α) (l : List α) (hl : l.Pairwise (fun x y => le x y = true)) :
    (insertLe le a l).Pairwise (fun x y => le x y = true) := by
  induction l with
  | nil => simp [insertLe]
  | cons b bs ih =>
    rcases List.pairwise_cons.mp hl with ⟨hb, hbs⟩
    simp only [insertLe]
    cases hle : le a b
    · have hba : le b a = true := (htot a b).resolve_left (by simp [hle])
      simp only [Bool.false_eq_true, if_false]
      refine List.pairwise_cons.mpr ⟨?_, ih hbs⟩
      intro x hx
      have hx' : x ∈ a :: bs := (insertLe_perm le a bs).subset hx
      rcases List.mem_cons.mp hx' with rfl | hx''
      · exact hba
      · exact hb x hx''
    · simp only [if_true]
      refine List.pairwise_cons.mpr ⟨?_, hl⟩
      intro x hx
      rcases List.mem_cons.mp hx with rfl | hx'
      · exact hle
      · exact htrans a b x hle (hb x hx')

theorem pairwise_sortByLe {α : Type} (le : α → α → Bool)
    (htrans : ∀ a b c, le a b = true → le b c = true → le a c = true)
    (htot : ∀ a b, le a b = true ∨ le b a = true) (l : List α) :
    (sortByLe le l).Pairwise (fun x y => le x y = true) := by
  induction l with
  | nil => simp [sortByLe]
  | cons a as ih => exact pairwise_insertLe le htrans htot a _ ih

/-- First-occurrence duplicate removal with an explicit seen accumulator. -/
def dedupSeen (seen : List Value) : List Value → List Value
  | [] => []
  | a :: as =>
    if a ∈ seen then dedupSeen seen as else a :: dedupSeen (a :: seen) as

/-- The distinct values of a list in first-seen order. -/
def dedupFirst (l : List Value) : List Value := dedupSeen [] l

theorem mem_dedupSeen (seen l : List Value) (x : Value) :
    x ∈ dedupSeen seen l ↔ (x ∈ l ∧ x ∉ seen) := by
  induction l generalizing seen with
  | nil => simp [dedupSeen]
  | cons a as ih =>
    simp only [dedupSeen]
    by_cases ha : a ∈ seen
    · rw [if_pos ha, ih]
      constructor
      · rintro ⟨h1, h2⟩
        exact ⟨List.mem_cons_of_mem _ h1, h2⟩
      · rintro ⟨h1, h2⟩
        rcases List.mem_cons.mp h1 with rfl | h1'
        · exact absurd ha h2
        · exact ⟨h1', h2⟩
    · rw [if_neg ha]
      simp only [List.mem_cons, ih]
      constructor
      · rintro (rfl | ⟨h1, h2⟩)
        · exact ⟨Or.inl rfl, ha⟩
        · exact ⟨Or.inr h1, fun hx => h2 (Or.inr hx)⟩
      · rintro ⟨hmem, h2⟩
        by_cases hxa : x = a
        · exact Or.inl hxa
        · rcases hmem with rfl | h1
          · exact Or.inl rfl
          · refine Or.inr ⟨h1, ?_⟩
            intro hx
            rcases hx with rfl | hx'
            · exact hxa rfl
            · exact h2 hx'

theorem mem_dedupFirst (l : List Value) (x : Value) :
    x ∈ dedupFirst l ↔ x ∈ l := by
  rw [dedupFirst, mem_dedupSeen]
  simp

theorem nodup_dedupSeen (seen l : List Value) : (dedupSeen seen l).Nodup := by
  induction l generalizing seen with
  | nil => simp [dedupSeen]
  | cons a as ih =>
    simp only [dedupSeen]
    by_cases ha : a ∈ seen
    · rw [if_pos ha]; exact ih seen
    · rw [if_neg ha]
      refine List.nodup_cons.mpr ⟨?_, ih (a :: seen)⟩
      intro hmem
      exact ((mem_dedupSeen _ _ _).mp hmem).2 (List.mem_cons_self a seen)

theorem nodup_dedupFirst (l : List Value) : (dedupFirst l).Nodup :=
  nodup_dedupSeen [] l

/-- Numeric view of a cell: pandas aggregations skip missing values, and the
aggregated columns of the claims are integer-valued. -/
def cellToInt : Cell → Option Int
  | some (Value.int n) => some n
  | _ => none

/-- pandas `Series.sum()` over cells, skipping missing values. -/
def sumCells (l : List Cell) : Int := (l.filterMap cellToInt).sum

/-- Lexicographic comparison of strings as character lists (the standard
string order, written out so it evaluates in the kernel). -/
def charListLt : List Char → List Char → Bool
  | [], [] => false
  | [], _ :: _ => true
  | _ :: _, [] => false
  | a :: as, b :: bs =>
    if a < b then true else if b < a then false else charListLt as bs

/-- Ascending order on values, as pandas orders group keys (the cross-kind
cases never arise in a homogeneous column). -/
def Value.le : Value → Value → Bool
  | .int a, .int b => decide (a ≤ b)
  | .str a, .str b => a == b || charListLt a.data b.data
  | .int _, .str _ => true
  | .str _, .int _ => false

/-- The value-column total over the rows whose key cell equals `k`. -/
def groupTotal (keys vals : List Cell) (k : Value) : Int :=
  sumCells (((keys.zip vals).filter (fun p => p.1 == some k)).map (fun p => p.2))

/-- `df.groupby(key)[val].sum()`: rows with a missing key are dropped, the
distinct keys are sorted ascending (pandas `sort=True` default), and each
group sums its value cells. -/
def groupbySum (keys vals : List Cell) : List (Value × Int) :=
  (sortByLe Value.le (dedupFirst (keys.filterMap id))).map
    (fun k => (k, groupTotal keys vals k))

/-- Descending-by-total order modelling `sort_values(ascending=False)`. -/
def descBySnd (a b : Value × Int) : Bool := decide (b.2 ≤ a.2)

/-- `df.groupby('Model')['Sales'].sum().sort_values(ascending=False).head(10)`
(src/EDA.py line 46); `sort_values` is modelled as a stable comparison sort
by value (pandas' default quicksort fixes no tie order). -/
def top_models (df : DataFrame) : List (Value × Int) :=
  (sortByLe descBySnd (groupbySum (getCol df "Model") (getCol df "Sales"))).take 10

/-- `df.head(n)`: the first `n` rows. -/
def dfHead (df : DataFrame) (n : Nat) : DataFrame :=
  df.map (fun c => ⟨c.name, c.cells.take n⟩)

/-- `df.shape`: (row count, column count). -/
def dfShape (df : DataFrame) : Nat × Nat :=
  ((df.head?.map (fun c => c.cells.length)).getD 0, df.length)

/-- `df.isnull().sum()` (src/EDA.py line 32): per-column missing counts. -/
def missing_values (df : DataFrame) : List (String × Nat) :=
  df.map (fun c => (c.name, (c.cells.filter (fun x => x.isNone)).length))

/-- `missing_values.sum()`: the total missing count across all columns. -/
def totalMissing (df : DataFrame) : Nat :=
  ((missing_values df).map (fun p => p.2)).sum

/-- pandas `Series.mean()` over cells: missing values dropped, `none` when no
numeric value remains (NaN). -/
def meanCells (l : List Cell) : Option ℚ :=
  match l.filterMap cellToInt with
  | [] => none
  | x :: xs => some ((((x :: xs).sum : Int) : ℚ) / (x :: xs).length)

/-- `df.groupby(key)[val].mean()`, keys handled as in `groupbySum`. -/
def groupbyMean (keys vals : List Cell) : List (Value × Option ℚ) :=
  (sortByLe Value.le (dedupFirst (keys.filterMap id))).map
    (fun k => (k, meanCells (((keys.zip vals).filter
      (fun p => p.1 == some k)).map (fun p => p.2))))

/-- The running argmax kept by an idxmax scan: first occurrence wins ties. -/
def argmaxFold {β : Type} [LinearOrder β] : List (Value × β) → Option (Value × β)
  | [] => none
  | p :: rest => some (rest.foldl (fun best q => if best.2 < q.2 then q else best) p)

/-- pandas `Series.idxmax()`: the label of the first maximal entry. -/
def seriesIdxmax (s : List (Value × Int)) : Option Value :=
  (argmaxFold s).map (fun p => p.1)

/-- pandas `Series.max()`. -/
def seriesMax : List (Value × Int) → Option Int
  | [] => none
  | p :: rest => some (rest.foldl (fun m q => max m q.2) p.2)

/-- `Series.idxmax()` for a mean series: NaN entries are skipped. -/
def seriesIdxmaxQ (s : List (Value × Option ℚ)) : Option Value :=
  (argmaxFold (s.filterMap (fun p => p.2.map (fun q => (p.1, q))))).map
    (fun p => p.1)

/-- pandas `Series.nunique()`: distinct non-missing values. -/
def nunique (cells : List Cell) : Nat := (dedupFirst (cells.filterMap id)).length

/-- pandas `Series.min()` over non-missing values. -/
def cellMin (cells : List Cell) : Option Value :=
  match cells.filterMap id with
  | [] => none
  | v :: vs => some (vs.foldl (fun m x => if Value.le x m then x else m) v)

/-- pandas `Series.max()` over non-missing values. -/
def cellMax (cells : List Cell) : Option Value :=
  match cells.filterMap id with
  | [] => none
  | v :: vs => some (vs.foldl (fun m x => if Value.le m x then x else m) v)

/-- Occurrences of value `v` among the cells. -/
def countOf (cells : List Cell) (v : Value) : Nat :=
  (cells.filter (fun x => x == some v)).length

/-- `Series.mode()[0]`: the least (pandas sorts the modes) most frequent
value. -/
def mode0 (cells : List Cell) : Option Value :=
  let vs := dedupFirst (cells.filterMap id)
  let mx := (vs.map (countOf cells)).foldl max 0
  (sortByLe Value.le (vs.filter (fun v => countOf cells v == mx))).head?

/-- One streamlit rendering action.  Chart constructors record the series the
source computes for them; `dtypesOf`/`describeOf`/seaborn charts record the
dataframe handed to the external library. -/
inductive Output where
  | header : String → Output
  | text : String → Output
  | frame : DataFrame → Output
  | shapeOf : Nat × Nat → Output
  | dtypesOf : DataFrame → Output
  | table : List (String × Nat) → Output
  | describeOf : DataFrame → Output
  | histChart : List Cell → Output
  | barChart : List (Value × Int) → Output
  | pieChart : List (Value × Int) → Output
  | seabornBar : String → String → DataFrame → Output
  | lineChart : List (Value × Int) → Output
  | scatterChart : String → String → String → DataFrame → Output
  | insightYears : Nat → Option Value → Option Value → Output
  | insightTopModel : Option Value → Option Int → Output
  | insightCommonFuel : Option Value → Output
  | insightAvgPrice : Option ℚ → Output
  | insightTopBody : Option Value → Output
  | insightTopYear : Option Value → Output
deriving DecidableEq

/-- The Missing Values step (src/EDA.py lines 31–33): the per-column counts
restricted to positive ones when any cell is missing, else the message. -/
def missingReport (df : DataFrame) : Output :=
  if 0 < totalMissing df then
    Output.table ((missing_values df).filter (fun p => decide (0 < p.2)))
  else Output.text "No missing values found."

/-- `explore_data` (src/EDA.py lines 23–36): renders overview, dtypes,
missing values and descriptive statistics; returns the outputs and the
dataframe as left behind by the body. -/
def explore_data (df : DataFrame) : List Output × DataFrame :=
  ([ Output.header "Data Overview",
     Output.frame (dfHead df 5),
     Output.shapeOf (dfShape df),
     Output.header "Data Types",
     Output.dtypesOf df,
     Output.header "Missing Values",
     missingReport df,
     Output.header "Descriptive Statistics",
     Output.describeOf df ], df)

/-- `create_visualizations` (src/EDA.py lines 39–71). -/
def create_visualizations (df : DataFrame) : List Output × DataFrame :=
  ([ Output.header "Sales Distribution",
     Output.histChart (getCol df "Sales"),
     Output.header "Top 10 Models by Sales",
     Output.barChart (top_models df),
     Output.header "Sales by Fuel Type",
     Output.pieChart (groupbySum (getCol df "Fuel_Type") (getCol df "Sales")),
     Output.header "Average Price by Body Type",
     Output.seabornBar "Body_Type" "Price" df,
     Output.header "Sales Trend Over Years",
     Output.lineChart (groupbySum (getCol df "Year") (getCol df "Sales")),
     Output.header "Price vs Sales Scatter Plot",
     Output.scatterChart "Price" "Sales" "Make" df ], df)

/-- `generate_insights_and_recommendations` (src/EDA.py lines 74–97): the six
insights carry the quantities the f-strings interpolate; the six
recommendations are literal text. -/
def generate_insights_and_recommendations (df : DataFrame) :
    List Output × DataFrame :=
  ([ Output.header "Insights",
     Output.insightYears (nunique (getCol df "Year"))
       (cellMin (getCol df "Year")) (cellMax (getCol df "Year")),
     Output.insightTopModel
       (seriesIdxmax (groupbySum (getCol df "Model") (getCol df "Sales")))
       (seriesMax (groupbySum (getCol df "Model") (getCol df "Sales"))),
     Output.insightCommonFuel (mode0 (getCol df "Fuel_Type")),
     Output.insightAvgPrice (meanCells (getCol df "Price")),
     Output.insightTopBody
       (seriesIdxmaxQ (groupbyMean (getCol df "Body_Type") (getCol df "Price"))),
     Output.insightTopYear
       (seriesIdxmax (groupbySum (getCol df "Year") (getCol df "Sales"))),
     Output.header "Recommendations",
     Output.text "Analyze the factors contributing to the success of the top-selling models and apply these insights to other models.",
     Output.text "Consider expanding the range of electric and CNG vehicles if their sales show a positive trend.",
     Output.text "Investigate the correlation between price and sales to optimize pricing strategies.",
     Output.text "Focus marketing efforts on the body types that show the highest sales and profitability.",
     Output.text "Conduct a deeper analysis of yearly sales trends to identify any patterns or external factors affecting sales.",
     Output.text "Explore the possibility of introducing new models in the most popular segments." ], df)

/-- C2: each of the three processing steps returns the dataframe it received
unchanged — every pandas call in their bodies is value-producing, and the
threaded state coming out of each body is the input dataframe itself. -/
theorem processing_preserves_dataframe (df : DataFrame) :
    (explore_data df).2 = df ∧ (create_visualizations df).2 = df ∧
    (generate_insights_and_recommendations df).2 = df :=
  ⟨rfl, rfl, rfl⟩

/-- C3: the missing-values step reports the no-missing message exactly when
the total missing count is zero, and otherwise reports the per-column counts
restricted to the strictly positive ones. -/
theorem missingReport_cases (df : DataFrame) :
    (missingReport df = Output.text "No missing values found." ↔
      totalMissing df = 0) ∧
    (totalMissing df ≠ 0 →
      missingReport df =
        Output.table ((missing_values df).filter (fun p => decide (0 < p.2)))) := by
  constructor
  · constructor
    · intro h
      by_contra hne
      rw [missingReport, if_pos (Nat.pos_of_ne_zero hne)] at h
      exact Output.noConfusion h
    · intro h
      rw [missingReport, if_neg (by omega)]
  · intro hne
    rw [missingReport, if_pos (Nat.pos_of_ne_zero hne)]

/-- A one-column frame with one missing cell, for the C3 witness. -/
def dfOneMissing : DataFrame := [⟨"A", [none, some (Value.int 1)]⟩]

/-- Closed instance of `missingReport_cases` on a frame with a missing cell:
the report lists exactly the positively-counted column. -/
theorem missingReport_cases_witness :
    missingReport dfOneMissing = Output.table [("A", 1)] := by
  have h := (missingReport_cases dfOneMissing).2 (by decide)
  rw [h]
  rfl

/-- The C4 computation as the claim words it: per-model totals listed in
first-seen order of the models, stably sorted by descending total, truncated
to 10 entries. -/
def top_models_firstSeen (df : DataFrame) : List (Value × Int) :=
  (sortByLe descBySnd ((dedupFirst ((getCol df "Model").filterMap id)).map
    (fun k => (k, groupTotal (getCol df "Model") (getCol df "Sales") k)))).take 10

/-- Two models seen in the order B, A with tied totals: `groupby` sorts the
keys ascending before `sort_values` runs, so first-seen order is lost. -/
def dfTieBA : DataFrame :=
  [⟨"Model", [some (Value.str "B"), some (Value.str "A")]⟩,
   ⟨"Sales", [some (Value.int 10), some (Value.int 10)]⟩]

/-- C4 counterexample: on `dfTieBA` the code yields the tied totals in
ascending key order A, B, not the first-seen order B, A the claim states. -/
theorem top_models_tie_not_firstSeen :
    top_models dfTieBA = [(Value.str "A", 10), (Value.str "B", 10)] ∧
    top_models_firstSeen dfTieBA = [(Value.str "B", 10), (Value.str "A", 10)] ∧
    top_models dfTieBA ≠ top_models_firstSeen dfTieBA := by
  decide

/-- C4 (amended): `top_models` returns at most 10 entries, sorted by
non-increasing total, and every entry pairs a distinct observed model with
the sum of Sales over that model's rows; ties follow the sort of the
key-ascending groupby output rather than first-seen order. -/
theorem top_models_sorted_bounded_totals (df : DataFrame) :
    (top_models df).length ≤ 10 ∧
    (top_models df).Pairwise (fun a b => b.2 ≤ a.2) ∧
    ∀ p ∈ top_models df,
      p.1 ∈ dedupFirst ((getCol df "Model").filterMap id) ∧
      p.2 = groupTotal (getCol df "Model") (getCol df "Sales") p.1 := by
  refine ⟨List.length_take_le _ _, ?_, ?_⟩
  · have hp := pairwise_sortByLe descBySnd
      (by
        intro a b c hab hbc
        have h1 := of_decide_eq_true hab
        have h2 := of_decide_eq_true hbc
        exact decide_eq_true (le_trans h2 h1))
      (by
        intro a b
        rcases le_total b.2 a.2 with h | h
        · exact Or.inl (decide_eq_true h)
        · exact Or.inr (decide_eq_true h))
      (groupbySum (getCol df "Model") (getCol df "Sales"))
    have hs := hp.sublist (List.take_sublist 10 _)
    exact hs.imp (fun h => of_decide_eq_true h)
  · intro p hp
    have hp1 : p ∈ sortByLe descBySnd
        (groupbySum (getCol df "Model") (getCol df "Sales")) :=
      List.take_subset _ _ hp
    have hp2 : p ∈ groupbySum (getCol df "Model") (getCol df "Sales") :=
      (sortByLe_perm descBySnd _).subset hp1
    obtain ⟨k, hk, rfl⟩ := List.mem_map.mp hp2
    exact ⟨(sortByLe_perm Value.le _).subset hk, rfl⟩

/-- A one-row frame for the C4 witness. -/
def dfOneModel : DataFrame :=
  [⟨"Model", [some (Value.str "A")]⟩, ⟨"Sales", [some (Value.int 5)]⟩]

/-- Closed instance of `top_models_sorted_bounded_totals` on `dfOneModel`. -/
theorem top_models_sorted_bounded_totals_witness :
    (top_models dfOneModel).length ≤ 10 ∧
    (Value.str "A") ∈ dedupFirst ((getCol dfOneModel "Model").filterMap id) ∧
    (5 : Int) = groupTotal (getCol dfOneModel "Model")
      (getCol dfOneModel "Sales") (Value.str "A") := by
  obtain ⟨h1, _, h3⟩ := top_models_sorted_bounded_totals dfOneModel
  exact ⟨h1, (h3 (Value.str "A", 5) (by decide)).1,
    (h3 (Value.str "A", 5) (by decide)).2⟩

theorem foldl_argmax_mem {β : Type} [LinearOrder β] (rest : List (Value × β))
    (p : Value × β) :
    rest.foldl (fun best q => if best.2 < q.2 then q else best) p ∈ p :: rest := by
  induction rest generalizing p with
  | nil => exact List.mem_singleton.mpr rfl
  | cons q rest ih =>
    simp only [List.foldl_cons]
    have h := ih (if p.2 < q.2 then q else p)
    rcases List.mem_cons.mp h with heq | hmem
    · rw [heq]
      by_cases hc : p.2 < q.2
      · rw [if_pos hc]
        exact List.mem_cons_of_mem _ (List.mem_cons_self _ _)
      · rw [if_neg hc]
        exact List.mem_cons_self _ _
    · exact List.mem_cons_of_mem _ (List.mem_cons_of_mem _ hmem)

theorem foldl_argmax_snd {β : Type} [LinearOrder β] (rest : List (Value × β))
    (p : Value × β) :
    (rest.foldl (fun best q => if best.2 < q.2 then q else best) p).2
      = rest.foldl (fun m q => max m q.2) p.2 := by
  induction rest generalizing p with
  | nil => rfl
  | cons q rest ih =>
    simp only [List.foldl_cons]
    rw [ih]
    congr 1
    by_cases hc : p.2 < q.2
    · rw [if_pos hc, max_eq_right (le_of_lt hc)]
    · rw [if_neg hc, max_eq_left (le_of_not_lt hc)]

theorem le_foldl_max {β : Type} [LinearOrder β] (rest : List (Value × β)) (m : β) :
    m ≤ rest.foldl (fun m q => max m q.2) m ∧
    ∀ x ∈ rest, x.2 ≤ rest.foldl (fun m q => max m q.2) m := by
  induction rest generalizing m with
  | nil => exact ⟨le_refl m, by simp⟩
  | cons q rest ih =>
    simp only [List.foldl_cons]
    obtain ⟨h1, h2⟩ := ih (max m q.2)
    refine ⟨le_trans (le_max_left _ _) h1, ?_⟩
    intro x hx
    rcases List.mem_cons.mp hx with rfl | hx'
    · exact le_trans (le_max_right _ _) h1
    · exact h2 x hx'

/-- On a nonempty series, `idxmax` and `max` are computed from the same data:
the label `idxmax` returns is one whose entry carries exactly the value `max`
returns, and that value bounds the whole series. -/
theorem series_idxmax_max_consistent (s : List (Value × Int)) (h : s ≠ []) :
    ∃ k m, seriesIdxmax s = some k ∧ seriesMax s = some m ∧
      (k, m) ∈ s ∧ ∀ q ∈ s, q.2 ≤ m := by
  cases s with
  | nil => exact absurd rfl h
  | cons p rest =>
    have h1 : seriesIdxmax (p :: rest)
        = some ((rest.foldl (fun best q => if best.2 < q.2 then q else best) p).1) := rfl
    have h2 : seriesMax (p :: rest)
        = some (rest.foldl (fun m q => max m q.2) p.2) := rfl
    refine ⟨_, _, h1, h2, ?_, ?_⟩
    · have hm := foldl_argmax_mem rest p
      have hv := foldl_argmax_snd rest p
      rw [← hv]
      simpa using hm
    · intro q hq
      rcases List.mem_cons.mp hq with rfl | hq'
      · exact (le_foldl_max rest q.2).1
      · exact (le_foldl_max rest p.2).2 q hq'

/-- C9: the top-selling-model insight (src/EDA.py line 78) is internally
consistent — on any dataset where the Model/Sales groupby series is nonempty,
the separately computed `idxmax()` and `max()` name a model and a total that
form one entry of the same per-model totals, the total being their maximum. -/
theorem insight_top_model_consistent (df : DataFrame)
    (h : groupbySum (getCol df "Model") (getCol df "Sales") ≠ []) :
    ∃ k m,
      seriesIdxmax (groupbySum (getCol df "Model") (getCol df "Sales")) = some k ∧
      seriesMax (groupbySum (getCol df "Model") (getCol df "Sales")) = some m ∧
      (k, m) ∈ groupbySum (getCol df "Model") (getCol df "Sales") ∧
      ∀ q ∈ groupbySum (getCol df "Model") (getCol df "Sales"), q.2 ≤ m :=
  series_idxmax_max_consistent _ h

/-- A three-row frame for the C9 witness. -/
def dfThreeRows : DataFrame :=
  [⟨"Model", [some (Value.str "A"), some (Value.str "B"), some (Value.str "A")]⟩,
   ⟨"Sales", [some (Value.int 1), some (Value.int 5), some (Value.int 2)]⟩]

/-- Closed instance of `insight_top_model_consistent` on `dfThreeRows`. -/
theorem insight_top_model_consistent_witness :
    ∃ k m,
      seriesIdxmax (groupbySum (getCol dfThreeRows "Model")
        (getCol dfThreeRows "Sales")) = some k ∧
      seriesMax (groupbySum (getCol dfThreeRows "Model")
        (getCol dfThreeRows "Sales")) = some m ∧
      (k, m) ∈ groupbySum (getCol dfThreeRows "Model") (getCol dfThreeRows "Sales") ∧
      ∀ q ∈ groupbySum (getCol dfThreeRows "Model") (getCol dfThreeRows "Sales"),
        q.2 ≤ m :=
  insight_top_model_consistent dfThreeRows (by decide)

theorem sumCells_cons (x : Cell) (l : List Cell) :
    sumCells (x :: l) = (cellToInt x).getD 0 + sumCells l := by
  unfold sumCells
  cases hx : cellToInt x <;> simp [List.filterMap_cons, hx]

theorem sumSnd_filter_split (ps : List (Cell × Cell)) (q : Cell × Cell → Bool) :
    sumCells ((ps.filter q).map (fun p => p.2))
      + sumCells ((ps.filter (fun p => !(q p))).map (fun p => p.2))
      = sumCells (ps.map (fun p => p.2)) := by
  induction ps with
  | nil => rfl
  | cons p ps ih =>
    by_cases hq : q p
    · simp only [List.filter_cons, hq, Bool.not_true, Bool.false_eq_true,
        if_true, if_false, List.map_cons, sumCells_cons]
      omega
    · simp only [List.filter_cons, Bool.not_eq_true' .. ]
      rw [if_neg (by simp [hq]), if_pos (by simp [hq])]
      simp only [List.map_cons, sumCells_cons]
      omega

theorem filter_key_of_filter_ne (ps : List (Cell × Cell)) (k k2 : Value)
    (hne : k2 ≠ k) :
    (ps.filter (fun p => !(p.1 == some k))).filter (fun p => p.1 == some k2)
      = ps.filter (fun p => p.1 == some k2) := by
  induction ps with
  | nil => rfl
  | cons p ps ih =>
    by_cases h2 : p.1 = some k2
    · have hk : p.1 ≠ some k := by
        rw [h2]
        exact fun hh => hne (Option.some.inj hh)
      simp [List.filter_cons, h2, hk, ih]
      rw [if_neg hne]
      simp [List.filter_cons, h2, ih]
    · by_cases hk : p.1 = some k
      · simp [List.filter_cons, h2, hk, ih]
        rw [if_neg (fun h => hne h.symm)]
      · simp [List.filter_cons, h2, hk, ih]

theorem groups_sum_partition (ks : List Value) (ps : List (Cell × Cell))
    (hnd : ks.Nodup)
    (hcov : ∀ p ∈ ps, ∃ k ∈ ks, p.1 = some k) :
    (ks.map (fun k =>
        sumCells ((ps.filter (fun p => p.1 == some k)).map (fun p => p.2)))).sum
      = sumCells (ps.map (fun p => p.2)) := by
  induction ks generalizing ps with
  | nil =>
    cases ps with
    | nil => rfl
    | cons p ps =>
      obtain ⟨k, hk, _⟩ := hcov p (List.mem_cons_self _ _)
      exact absurd hk (List.not_mem_nil k)
  | cons k ks ih =>
    rw [List.map_cons, List.sum_cons]
    have htail : (ks.map (fun k2 =>
        sumCells ((ps.filter (fun p => p.1 == some k2)).map (fun p => p.2)))).sum
        = (ks.map (fun k2 => sumCells
            (((ps.filter (fun p => !(p.1 == some k))).filter
              (fun p => p.1 == some k2)).map (fun p => p.2)))).sum := by
      refine congrArg List.sum (List.map_congr_left ?_)
      intro k2 hk2
      have hne : k2 ≠ k := by
        intro h
        exact (List.nodup_cons.mp hnd).1 (h ▸ hk2)
      rw [filter_key_of_filter_ne ps k k2 hne]
    rw [htail, ih (ps.filter (fun p => !(p.1 == some k)))
      (List.nodup_cons.mp hnd).2 ?_]
    · exact sumSnd_filter_split ps (fun p => p.1 == some k)
    · intro p hp
      have hmem : p ∈ ps := List.mem_of_mem_filter hp
      have hnk : (p.1 == some k) = false := by
        have := List.of_mem_filter hp
        simpa using this
      obtain ⟨k0, hk0, hpk⟩ := hcov p hmem
      rcases List.mem_cons.mp hk0 with rfl | hk0'
      · rw [hpk] at hnk
        simp at hnk
      · exact ⟨k0, hk0', hpk⟩

/-- C10: on a dataset whose Fuel_Type and Sales columns have no missing cells
(and agree in length, the dataset row-count invariant), the per-fuel-type
totals computed for the pie chart partition the Sales column: their sum is
the whole column's sum. -/
theorem pie_groups_partition_sales (df : DataFrame)
    (hk : ∀ c ∈ getCol df "Fuel_Type", c ≠ none)
    (hlen : (getCol df "Fuel_Type").length = (getCol df "Sales").length) :
    ((groupbySum (getCol df "Fuel_Type") (getCol df "Sales")).map
        (fun p => p.2)).sum
      = sumCells (getCol df "Sales") := by
  have hcov : ∀ p ∈ (getCol df "Fuel_Type").zip (getCol df "Sales"),
      ∃ v ∈ dedupFirst ((getCol df "Fuel_Type").filterMap id), p.1 = some v := by
    intro p hp
    have h1 : p.1 ∈ getCol df "Fuel_Type" := (List.of_mem_zip hp).1
    have h2 : p.1 ≠ none := hk p.1 h1
    cases hp1 : p.1 with
    | none => exact absurd hp1 h2
    | some v =>
      refine ⟨v, ?_, rfl⟩
      rw [mem_dedupFirst]
      exact List.mem_filterMap.mpr ⟨some v, hp1 ▸ h1, rfl⟩
  have hpart := groups_sum_partition
    (dedupFirst ((getCol df "Fuel_Type").filterMap id))
    ((getCol df "Fuel_Type").zip (getCol df "Sales")) (nodup_dedupFirst _) hcov
  have hz : (((getCol df "Fuel_Type").zip (getCol df "Sales")).map
      (fun p => p.2)) = getCol df "Sales" := by
    have h := List.map_snd_zip (getCol df "Fuel_Type") (getCol df "Sales")
      (le_of_eq hlen.symm)
    simpa using h
  unfold groupbySum
  rw [List.map_map]
  have hsum := ((sortByLe_perm Value.le
      (dedupFirst ((getCol df "Fuel_Type").filterMap id))).map
      ((fun p : Value × Int => p.2) ∘
        (fun k => (k, groupTotal (getCol df "Fuel_Type")
          (getCol df "Sales") k)))).sum_eq
  rw [hsum]
  simp only [Function.comp_def]
  unfold groupTotal
  rw [hpart, hz]

/-- A three-row fuel/sales frame for the C10 witness. -/
def dfFuelSales : DataFrame :=
  [⟨"Fuel_Type", [some (Value.str "Petrol"), some (Value.str "Diesel"),
      some (Value.str "Petrol")]⟩,
   ⟨"Sales", [some (Value.int 1), some (Value.int 2), some (Value.int 3)]⟩]

/-- Closed instance of `pie_groups_partition_sales` on `dfFuelSales`. -/
theorem pie_groups_partition_sales_witness :
    ((groupbySum (getCol dfFuelSales "Fuel_Type")
        (getCol dfFuelSales "Sales")).map (fun p => p.2)).sum
      = sumCells (getCol dfFuelSales "Sales") :=
  pie_groups_partition_sales dfFuelSales (by decide) (by decide)

/-- Result of the upload-mode data loader (spec §4.1, §7). -/
inductive LoadResult where
  | ok : DataFrame → LoadResult
  | unsupportedFormat : LoadResult
  | loadError : String → LoadResult
deriving DecidableEq

/-- `s` ends with `suffix`, compared on character lists so it evaluates in
the kernel. -/
def strEndsWith (s suffix : String) : Bool :=
  s.data.drop (s.data.length - suffix.data.length) == suffix.data

/-- Modelled from the spec: the file-upload Data Loader (spec §4.1) belongs
to the second front-end, absent from src/.  Format is chosen by filename
suffix — `.csv` to the csv parser, `.xls`/`.xlsx` to the spreadsheet
parser, any other suffix fails with `UnsupportedFormat`; a parse failure
surfaces as `LoadError` carrying the parser's message. -/
def load_file (fname : String)
    (parseCsv parseExcel : String → Except String DataFrame)
    (content : String) : LoadResult :=
  if strEndsWith fname ".csv" then
    match parseCsv content with
    | .ok d => .ok d
    | .error e => .loadError e
  else if strEndsWith fname ".xls" || strEndsWith fname ".xlsx" then
    match parseExcel content with
    | .ok d => .ok d
    | .error e => .loadError e
  else .unsupportedFormat

/-- The dataset the caller sees; absent unless loading succeeded. -/
def datasetOf : LoadResult → Option DataFrame
  | .ok d => some d
  | _ => none

/-- C5: for any filename whose suffix is none of `.csv`, `.xls`, `.xlsx`,
the loader returns `UnsupportedFormat` — no exception path exists in the
model — and the dataset is absent, so no further computation can proceed. -/
theorem load_file_unsupported_suffix (fname : String)
    (parseCsv parseExcel : String → Except String DataFrame) (content : String)
    (h1 : strEndsWith fname ".csv" = false)
    (h2 : strEndsWith fname ".xls" = false)
    (h3 : strEndsWith fname ".xlsx" = false) :
    load_file fname parseCsv parseExcel content = LoadResult.unsupportedFormat ∧
    datasetOf (load_file fname parseCsv parseExcel content) = none := by
  unfold load_file
  rw [if_neg (by simp [h1]), if_neg (by simp [h2, h3])]
  exact ⟨rfl, rfl⟩

/-- Closed instance of `load_file_unsupported_suffix` at `data.txt`. -/
theorem load_file_unsupported_suffix_witness :
    load_file "data.txt" (fun _ => Except.error "") (fun _ => Except.error "") ""
      = LoadResult.unsupportedFormat ∧
    datasetOf (load_file "data.txt" (fun _ => Except.error "")
      (fun _ => Except.error "") "") = none :=
  load_file_unsupported_suffix "data.txt" (fun _ => Except.error "")
    (fun _ => Except.error "") "" (by decide) (by decide) (by decide)

/-- Declared column dtypes (spec §4.2 and glossary). -/
inductive DType where
  | intT
  | floatT
  | textT
  | categoryT
  | boolT
  | datetimeT
deriving DecidableEq

/-- Numeric declared types: integer or floating point. -/
def DType.isNumeric : DType → Bool
  | .intT => true
  | .floatT => true
  | _ => false

/-- Categorical declared types: text or category. -/
def DType.isCategorical : DType → Bool
  | .textT => true
  | .categoryT => true
  | _ => false

/-- Modelled from the spec: the Column Classifier (spec §4.2) of the second
front-end, absent from src/: it splits the schema (column names with their
declared dtypes) into numeric and categorical name lists, preserving column
order and silently dropping every other dtype. -/
def classify_columns (schema : List (String × DType)) :
    List String × List String :=
  ((schema.filter (fun c => c.2.isNumeric)).map (fun c => c.1),
   (schema.filter (fun c => c.2.isCategorical)).map (fun c => c.1))

theorem dtype_not_both (t : DType) :
    ¬(t.isNumeric = true ∧ t.isCategorical = true) := by
  cases t <;> simp [DType.isNumeric, DType.isCategorical]

theorem classify_counts_le (schema : List (String × DType)) :
    (schema.filter (fun c => c.2.isNumeric)).length +
      (schema.filter (fun c => c.2.isCategorical)).length ≤ schema.length := by
  induction schema with
  | nil => simp
  | cons c cs ih =>
    cases hn : c.2.isNumeric <;> cases hcat : c.2.isCategorical
    · simp only [List.filter_cons, hn, hcat, Bool.false_eq_true, if_false,
        List.length_cons]
      omega
    · simp only [List.filter_cons, hn, hcat, Bool.false_eq_true, if_false,
        if_true, List.length_cons]
      omega
    · simp only [List.filter_cons, hn, hcat, Bool.false_eq_true, if_false,
        if_true, List.length_cons]
      omega
    · exact absurd ⟨hn, hcat⟩ (dtype_not_both c.2)

theorem classify_counts_eq (schema : List (String × DType))
    (hall : ∀ c ∈ schema, c.2.isNumeric = true ∨ c.2.isCategorical = true) :
    (schema.filter (fun c => c.2.isNumeric)).length +
      (schema.filter (fun c => c.2.isCategorical)).length = schema.length := by
  induction schema with
  | nil => simp
  | cons c cs ih =>
    have hc := hall c (List.mem_cons_self _ _)
    have ihc := ih (fun d hd => hall d (List.mem_cons_of_mem _ hd))
    cases hn : c.2.isNumeric <;> cases hcat : c.2.isCategorical
    · rw [hn, hcat] at hc
      simp at hc
    · simp only [List.filter_cons, hn, hcat, Bool.false_eq_true, if_false,
        if_true, List.length_cons]
      omega
    · simp only [List.filter_cons, hn, hcat, Bool.false_eq_true, if_false,
        if_true, List.length_cons]
      omega
    · exact absurd ⟨hn, hcat⟩ (dtype_not_both c.2)

/-- C7 (spec-modelled): the classifier returns disjoint numeric and
categorical name lists (given distinct column names), each preserving the
schema's column order; their lengths sum to at most the column count, with
equality whenever every declared type is numeric or categorical. -/
theorem classify_columns_partition (schema : List (String × DType))
    (hnd : (schema.map (fun c => c.1)).Nodup) :
    (∀ n ∈ (classify_columns schema).1, n ∉ (classify_columns schema).2) ∧
    (classify_columns schema).1.Sublist (schema.map (fun c => c.1)) ∧
    (classify_columns schema).2.Sublist (schema.map (fun c => c.1)) ∧
    (classify_columns schema).1.length + (classify_columns schema).2.length
      ≤ schema.length ∧
    ((∀ c ∈ schema, c.2.isNumeric = true ∨ c.2.isCategorical = true) →
      (classify_columns schema).1.length + (classify_columns schema).2.length
        = schema.length) := by
  refine ⟨?_, ?_, ?_, ?_, ?_⟩
  · intro n hn hn2
    obtain ⟨c, hcf, hc1⟩ := List.mem_map.mp hn
    obtain ⟨c', hcf', hc1'⟩ := List.mem_map.mp hn2
    have hcm : c ∈ schema := List.mem_of_mem_filter hcf
    have hcm' : c' ∈ schema := List.mem_of_mem_filter hcf'
    have hcc : c = c' := by
      apply List.inj_on_of_nodup_map hnd hcm hcm'
      rw [hc1, hc1']
    have hnum : c.2.isNumeric = true := by simpa using List.of_mem_filter hcf
    have hcat : c'.2.isCategorical = true := by simpa using List.of_mem_filter hcf'
    exact dtype_not_both c.2 ⟨hnum, hcc ▸ hcat⟩
  · exact (List.filter_sublist schema).map (fun c => c.1)
  · exact (List.filter_sublist schema).map (fun c => c.1)
  · simpa [classify_columns] using classify_counts_le schema
  · intro hall
    simpa [classify_columns] using classify_counts_eq schema hall

/-- Closed instance of `classify_columns_partition` on a three-column
schema holding one numeric, one text and one boolean column. -/
theorem classify_columns_partition_witness :
    "a" ∉ (classify_columns
      [("a", DType.intT), ("b", DType.textT), ("c", DType.boolT)]).2 ∧
    (classify_columns
      [("a", DType.intT), ("b", DType.textT), ("c", DType.boolT)]).1.length +
    (classify_columns
      [("a", DType.intT), ("b", DType.textT), ("c", DType.boolT)]).2.length ≤ 3 := by
  have h := classify_columns_partition
    [("a", DType.intT), ("b", DType.textT), ("c", DType.boolT)] (by decide)
  exact ⟨h.1 "a" (by decide), h.2.2.2.1⟩

/-- Sample mean of a rational list (0 on the empty list, as 0/0 = 0). -/
def qmean (xs : List ℚ) : ℚ := xs.sum / (xs.length : ℚ)

/-- Sample variance with the n − 1 denominator, as `scipy.stats.ttest_ind`
uses under its equal-variance default. -/
def sampleVar (xs : List ℚ) : ℚ :=
  ((xs.map (fun x => (x - qmean xs) ^ 2)).sum) / ((xs.length : ℚ) - 1)

/-- Pooled variance of the equal-variance two-sample t statistic. -/
def pooledVar (xs ys : List ℚ) : ℚ :=
  (((xs.length : ℚ) - 1) * sampleVar xs + ((ys.length : ℚ) - 1) * sampleVar ys)
    / ((xs.length : ℚ) + (ys.length : ℚ) - 2)

/-- The square of the t statistic — a rational in the sample moments. -/
def tSquared (xs ys : List ℚ) : ℚ :=
  (qmean xs - qmean ys) ^ 2
    / (pooledVar xs ys * (1 / (xs.length : ℚ) + 1 / (ys.length : ℚ)))

/-- Modelled from the spec: the Summary Engine two-sample independent t-test
(spec §4.3) of the second front-end, absent from src/.  The external
t-distribution CDF enters the two-sided p-value `2 * (1 - F(|t|))` only
through `|t|`, which is determined by `t²`, so the composite
`G : t² ↦ F(|t|)` is a parameter.  A sample of fewer than two points
(undefined sample variance) or a zero pooled variance (0/0 statistic)
yields `none`, the explicit NaN signal. -/
def ttest_ind (G : ℚ → ℚ) (xs ys : List ℚ) : Option ℚ :=
  if xs.length < 2 ∨ ys.length < 2 then none
  else if pooledVar xs ys = 0 then none
  else some (2 * (1 - G (tSquared xs ys)))

theorem sampleVar_nonneg (xs : List ℚ) (h : 1 ≤ xs.length) :
    0 ≤ sampleVar xs := by
  unfold sampleVar
  apply div_nonneg
  · apply List.sum_nonneg
    intro x hx
    obtain ⟨y, _, rfl⟩ := List.mem_map.mp hx
    exact sq_nonneg _
  · have h1 : (1 : ℚ) ≤ (xs.length : ℚ) := by exact_mod_cast h
    linarith

theorem pooledVar_nonneg (xs ys : List ℚ) (hx : 2 ≤ xs.length)
    (hy : 2 ≤ ys.length) : 0 ≤ pooledVar xs ys := by
  have hx1 : (2 : ℚ) ≤ (xs.length : ℚ) := by exact_mod_cast hx
  have hy1 : (2 : ℚ) ≤ (ys.length : ℚ) := by exact_mod_cast hy
  unfold pooledVar
  apply div_nonneg
  · apply add_nonneg
    · exact mul_nonneg (by linarith) (sampleVar_nonneg xs (by omega))
    · exact mul_nonneg (by linarith) (sampleVar_nonneg ys (by omega))
  · linarith

theorem sampleVar_replicate (m : Nat) (c : ℚ) :
    sampleVar (List.replicate m c) = 0 := by
  cases m with
  | zero =>
    unfold sampleVar
    simp
  | succ n =>
    have hmean : qmean (List.replicate (n + 1) c) = c := by
      unfold qmean
      rw [List.sum_replicate, List.length_replicate, nsmul_eq_mul]
      rw [mul_comm, mul_div_assoc, div_self (by exact_mod_cast Nat.succ_ne_zero n),
        mul_one]
    unfold sampleVar
    rw [hmean, List.map_replicate]
    simp

/-- C6 (spec-modelled): with the t-distribution CDF facts — values in
[1/2, 1] on nonnegative arguments — every p-value the test produces lies in
[0, 1]; and on two constant columns of one identical value the test returns
the NaN signal `none` instead of crashing or emitting a number. -/
theorem ttest_ind_p_in_unit (G : ℚ → ℚ)
    (hG : ∀ x : ℚ, 0 ≤ x → 1 / 2 ≤ G x ∧ G x ≤ 1) :
    (∀ xs ys p, ttest_ind G xs ys = some p → 0 ≤ p ∧ p ≤ 1) ∧
    (∀ (c : ℚ) (m n : Nat),
      ttest_ind G (List.replicate m c) (List.replicate n c) = none) := by
  constructor
  · intro xs ys p hp
    unfold ttest_ind at hp
    split_ifs at hp with hlen hsv
    have hx : 2 ≤ xs.length := by omega
    have hy : 2 ≤ ys.length := by omega
    have hx1 : (2 : ℚ) ≤ (xs.length : ℚ) := by exact_mod_cast hx
    have hy1 : (2 : ℚ) ≤ (ys.length : ℚ) := by exact_mod_cast hy
    have hsv' : 0 < pooledVar xs ys :=
      lt_of_le_of_ne (pooledVar_nonneg xs ys hx hy) (Ne.symm hsv)
    have hw : 0 < pooledVar xs ys *
        (1 / (xs.length : ℚ) + 1 / (ys.length : ℚ)) := by
      apply mul_pos hsv'
      have h1 : 0 < 1 / (xs.length : ℚ) := by positivity
      have h2 : 0 < 1 / (ys.length : ℚ) := by positivity
      linarith
    have ht2 : 0 ≤ tSquared xs ys := by
      unfold tSquared
      exact div_nonneg (sq_nonneg _) (le_of_lt hw)
    obtain ⟨hg1, hg2⟩ := hG (tSquared xs ys) ht2
    have hp' : p = 2 * (1 - G (tSquared xs ys)) := (Option.some.inj hp).symm
    rw [hp']
    constructor <;> linarith
  · intro c m n
    unfold ttest_ind
    by_cases hlen : m < 2 ∨ n < 2
    · rw [if_pos (by simpa using hlen)]
    · rw [if_neg (by simpa using hlen), if_pos ?_]
      unfold pooledVar
      rw [sampleVar_replicate, sampleVar_replicate]
      simp

/-- A constant stand-in for the CDF composite, for the C6 witness. -/
def halfG : ℚ → ℚ := fun _ => 1 / 2

/-- Closed instance of `ttest_ind_p_in_unit`: the p-value computed on the
samples [1, 2] and [1, 2, 3] under `halfG` is 1, which lies in [0, 1]; two
constant identical columns give the NaN signal. -/
theorem ttest_ind_p_in_unit_witness :
    (0 ≤ (1 : ℚ) ∧ (1 : ℚ) ≤ 1) ∧
    ttest_ind halfG (List.replicate 4 (3 : ℚ)) (List.replicate 5 (3 : ℚ))
      = none := by
  have h := ttest_ind_p_in_unit halfG
    (by
      intro x hx
      exact ⟨le_refl _, by norm_num [halfG]⟩)
  have hval : ttest_ind halfG [1, 2] [1, 2, 3] = some 1 := by
    have hpv : pooledVar [(1 : ℚ), 2] [(1 : ℚ), 2, 3] ≠ 0 := by
      norm_num [pooledVar, sampleVar, qmean]
    unfold ttest_ind
    rw [if_neg (by norm_num), if_neg hpv]
    norm_num [halfG]
  exact ⟨h.1 [1, 2] [1, 2, 3] 1 hval, h.2 3 4 5⟩
